import Mathlib

/-!
Verification development for the mlang repository (src/interpreter.py,
src/macro_transform.py).

The Python interpreter is a CPS evaluator: every `visit_*` method returns a
zero-argument lambda (a thunk), and `trampoline` repeatedly invokes thunks
until a non-callable value is produced.  Thunks and continuations are each
drawn from a fixed, finite set of lambdas in the source, so we defunctionalize
them into the inductive types `ThunkR` and `Kont`; mutable `Environment`
objects become indices into an explicit heap (`Heap`).  Every constructor
below corresponds to one lambda (or one class) of the source; comments cite
the source lines.
-/

namespace MLang

/-- Literal constants that a `LiteralNode` carries in the programs under
study (Python ints / bools / None). -/
inductive Const where
  | cnone : Const
  | cint (n : Int) : Const
  | cbool (b : Bool) : Const
deriving DecidableEq, Repr

/-- AST, from the `[AST class]` section of src/interpreter.py (lines 1-43).
`ifN` has an optional else branch (default `None` in Python). -/
inductive Node where
  | lit (c : Const)
  | var (name : String)
  | assign (name : String) (value : Node)
  | binaryOp (op : String) (left : Node) (right : Node)
  | ifN (cond : Node) (thenBody : Node) (elseBody : Option Node)
  | funcDef (name : String) (params : List String) (body : Node)
  | call (func : Node) (args : List Node)
  | block (statements : List Node)

mutual
/-- Runtime values.  Python lambdas (thunks) are first-class values in this
interpreter: `FunctionValue.call` returns the un-driven body thunk to its
continuation, so `thunkV` must be a `Value`.  `closure` is `FunctionValue`
(node's params/body plus the defining environment index). -/
inductive Value where
  | none : Value
  | int (n : Int) : Value
  | float (q : ℚ) : Value
  | bool (b : Bool) : Value
  | closure (params : List String) (body : Node) (envIdx : Nat) : Value
  | thunkV (t : ThunkR) : Value

/-- Defunctionalized thunks: one constructor per `lambda: ...` shape in the
source whose invocation the trampoline can observe.
* `applyk K v` — `lambda: K(v)` (visit_LiteralNode line 128, visit_FunctionNode
  line 181, Block's `lambda: K(res)` line 201).
* `varT` — `lambda: K(env.get(node.name))` (line 131).
* `execNode K n env` — `lambda: self.execute(K', node', env)` (lines 142, 166,
  167, 176, 193, 195, 204); invocation calls `execute`, which dispatches and
  returns the next thunk.
* `blockT` — `lambda: loop(node.statements, None)` (line 205).
* `evalargsT` — `lambda: eval_args(node.args, [])` (line 194). -/
inductive ThunkR where
  | applyk (K : Kont) (v : Value)
  | varT (K : Kont) (name : String) (env : Nat)
  | execNode (K : Kont) (n : Node) (env : Nat)
  | blockT (K : Kont) (stmts : List Node) (env : Nat)
  | evalargsT (funcValue : Value) (args : List Node) (acc : List Value) (env : Nat) (K : Kont)

/-- Defunctionalized continuations: one constructor per `lambda v: ...`
continuation in the source.
* `id` — `lambda v: v` (lines 94, 115).
* `assignK` — `lambda v: K(cont(v))` of visit_AssignNode (line 142).
* `binop1` — `cont1` of visit_BinaryOpNode (line 165).
* `binop2` — `lambda right: K(self.__evaluate_binary_op(...))` (line 166).
* `ifK` — `cont` of visit_IfNode (line 170).
* `afterFunc` — `after_func` of visit_FunctionCallNode (line 184).
* `callArg` — `c = lambda arg_value: eval_args(rest, acc + [arg_value])`
  (line 192).
* `seqK` — `lambda v: loop(rest, v)` of visit_BlockNode (line 204). -/
inductive Kont where
  | id : Kont
  | assignK (name : String) (env : Nat) (K : Kont)
  | binop1 (op : String) (right : Node) (env : Nat) (K : Kont)
  | binop2 (op : String) (left : Value) (K : Kont)
  | ifK (thenB : Node) (elseB : Option Node) (env : Nat) (K : Kont)
  | afterFunc (args : List Node) (env : Nat) (K : Kont)
  | callArg (funcValue : Value) (rest : List Node) (acc : List Value) (env : Nat) (K : Kont)
  | seqK (rest : List Node) (env : Nat) (K : Kont)
end

/-- One `Environment` object (src/interpreter.py lines 47-70): an insertion
ordered dict of variables plus an optional (non-owning) parent link, here an
index into the heap. -/
structure EnvData where
  vars : List (String × Value)
  parent : Option Nat

/-- The store of all `Environment` objects ever allocated; indices are object
identities.  `Environment(parent=...)` appends a fresh entry. -/
abbrev Heap := List EnvData

/-- Errors the interpreter can raise.
* `unboundVar` — `NameError(f"Variable '{name}' not found")` (lines 58, 70).
* `notCallable` — `TypeError(f"{node.func} is not callable")` (line 188).
* `typeError` — host `TypeError` from applying an arithmetic/comparison
  operator to non-numeric operands.
* `zeroDivision` — host `ZeroDivisionError` from `/`.
* `hostNameError s` — host `NameError: name 's' is not defined`; raised at
  line 162 where the f-string mentions `node`, which is not in scope inside
  `__evaluate_binary_op` (its parameters are `op, left, right`). -/
inductive Err where
  | unboundVar (name : String)
  | notCallable
  | typeError
  | zeroDivision
  | hostNameError (name : String)
deriving DecidableEq, Repr

/-- Python dict lookup on the ordered association list. -/
def varsGet : List (String × Value) → String → Option Value
  | [], _ => Option.none
  | (k, v) :: rest, name => if k = name then some v else varsGet rest name

/-- Python dict assignment `d[name] = v`: overwrite in place, else append. -/
def varsSet : List (String × Value) → String → Value → List (String × Value)
  | [], name, v => [(name, v)]
  | (k, w) :: rest, name, v =>
      if k = name then (name, v) :: rest else (k, w) :: varsSet rest name v

/-- `Environment.get` (lines 52-58), fuel-indexed: walk from `i` outward
through parents.  Parents are always allocated before children, so `p < i` on
every reachable heap; the guard and the fuel (any fuel `> i` gives the same
answer, see `envGetA_fuel`) only serve Lean's termination checker, keeping the
definition structurally recursive and hence computable by the kernel. -/
def envGetA (h : Heap) : Nat → Nat → String → Option Value
  | 0, _, _ => Option.none
  | fuel + 1, i, name =>
    match h[i]? with
    | Option.none => Option.none
    | some e =>
      match varsGet e.vars name with
      | some v => some v
      | Option.none =>
        match e.parent with
        | some p => if p < i then envGetA h fuel p name else Option.none
        | Option.none => Option.none

/-- `Environment.get` (lines 52-58). -/
def envGet (h : Heap) (i : Nat) (name : String) : Option Value :=
  envGetA h (i + 1) i name

/-- `Environment.set` (lines 60-61): write into scope `i` only. -/
def envSet (h : Heap) (i : Nat) (name : String) (v : Value) : Heap :=
  match h[i]? with
  | some e => h.set i ⟨varsSet e.vars name v, e.parent⟩
  | Option.none => h

/-- `Environment.update` (lines 64-70), fuel-indexed as for `envGetA`. -/
def envUpdateA (h : Heap) (v : Value) : Nat → Nat → String → Option Heap
  | 0, _, _ => Option.none
  | fuel + 1, i, name =>
    match h[i]? with
    | Option.none => Option.none
    | some e =>
      if (varsGet e.vars name).isSome then some (envSet h i name v)
      else
        match e.parent with
        | some p => if p < i then envUpdateA h v fuel p name else Option.none
        | Option.none => Option.none

/-- `Environment.update` (lines 64-70): overwrite the innermost scope already
holding `name`; `none` models the `NameError` when no scope holds it. -/
def envUpdate (h : Heap) (i : Nat) (name : String) (v : Value) : Option Heap :=
  envUpdateA h v (i + 1) i name

/-- Fuel-indexed search for the innermost scope binding `name`. -/
def envResolveA (h : Heap) : Nat → Nat → String → Option Nat
  | 0, _, _ => Option.none
  | fuel + 1, i, name =>
    match h[i]? with
    | Option.none => Option.none
    | some e =>
      if (varsGet e.vars name).isSome then some i
      else
        match e.parent with
        | some p => if p < i then envResolveA h fuel p name else Option.none
        | Option.none => Option.none

/-- The innermost scope on the chain from `i` that binds `name` (the scope
`Environment.update` would mutate and `Environment.get` would read). -/
def envResolve (h : Heap) (i : Nat) (name : String) : Option Nat :=
  envResolveA h (i + 1) i name

/-- `Environment(parent=...)` (lines 48-50): allocate a fresh scope. -/
def newEnv (h : Heap) (parent : Option Nat) : Heap × Nat :=
  (h ++ [⟨[], parent⟩], h.length)

/-- Python truthiness of the values that occur at runtime (`if cond:` line
171, `elif node.else_body:` line 173). -/
def truthy : Value → Bool
  | Value.none => false
  | Value.int n => n ≠ 0
  | Value.float q => q ≠ 0
  | Value.bool b => b
  | Value.closure _ _ _ => true
  | Value.thunkV _ => true

/-- Numeric view of a value: Python treats bools as ints in arithmetic. -/
def toNum : Value → Option (Int ⊕ ℚ)
  | Value.int n => some (Sum.inl n)
  | Value.bool b => some (Sum.inl (if b then 1 else 0))
  | Value.float q => some (Sum.inr q)
  | _ => Option.none

def numToQ : Int ⊕ ℚ → ℚ
  | Sum.inl n => (n : ℚ)
  | Sum.inr q => q

/-- `left OP right` for `+ - *`: int result if both ints, float otherwise. -/
def arith (f : Int → Int → Int) (g : ℚ → ℚ → ℚ) (l r : Value) : Except Err Value :=
  match toNum l, toNum r with
  | some (Sum.inl a), some (Sum.inl b) => Except.ok (Value.int (f a b))
  | some a, some b => Except.ok (Value.float (g (numToQ a) (numToQ b)))
  | _, _ => Except.error Err.typeError

/-- Numeric comparison for `<` / `>`. -/
def cmp (f : ℚ → ℚ → Bool) (l r : Value) : Except Err Value :=
  match toNum l, toNum r with
  | some a, some b => Except.ok (Value.bool (f (numToQ a) (numToQ b)))
  | _, _ => Except.error Err.typeError

/-- Python `==` on the values that occur at runtime: numbers compare by value
across int/bool/float; `None == None`.  Python compares distinct function and
lambda objects by identity; object identity is not modelled, and no claim
exercises `==` on them, so they compare unequal here. -/
def pyEq (l r : Value) : Bool :=
  match toNum l, toNum r with
  | some a, some b => numToQ a = numToQ b
  | _, _ =>
    match l, r with
    | Value.none, Value.none => true
    | _, _ => false

/-- `Interpreter.__evaluate_binary_op` (lines 144-162).  The final `else`
branch executes `raise ValueError(f"Unknown operator: {node.op}")`, but `node`
is not in scope there, so evaluating the f-string raises
`NameError: name 'node' is not defined` before any `ValueError` is built. -/
def evalBinop (op : String) (l r : Value) : Except Err Value :=
  if op = "+" then arith (· + ·) (· + ·) l r
  else if op = "-" then arith (· - ·) (· - ·) l r
  else if op = "*" then arith (· * ·) (· * ·) l r
  else if op = "/" then
    match toNum l, toNum r with
    | some a, some b =>
        if numToQ b = 0 then Except.error Err.zeroDivision
        else Except.ok (Value.float (numToQ a / numToQ b))
    | _, _ => Except.error Err.typeError
  else if op = "<" then cmp (· < ·) l r
  else if op = ">" then cmp (· > ·) l r
  else if op = "==" then Except.ok (Value.bool (pyEq l r))
  else if op = "!=" then Except.ok (Value.bool (! pyEq l r))
  else Except.error (Err.hostNameError "node")

def constVal : Const → Value
  | Const.cnone => Value.none
  | Const.cint n => Value.int n
  | Const.cbool b => Value.bool b

/-- `Interpreter.execute` (lines 117-125): dispatch to `visit_<type>` and run
the visit method's body up to (but not including) the returned lambda.  The
only visit method with a side effect before returning its lambda is
`visit_FunctionNode` (lines 178-181), which creates the `FunctionValue` and
binds it in the current environment eagerly. -/
def execute (K : Kont) (n : Node) (env : Nat) (h : Heap) : Heap × Value :=
  match n with
  | Node.lit c => (h, Value.thunkV (ThunkR.applyk K (constVal c)))
  | Node.var name => (h, Value.thunkV (ThunkR.varT K name env))
  | Node.assign name e => (h, Value.thunkV (ThunkR.execNode (Kont.assignK name env K) e env))
  | Node.binaryOp op l r => (h, Value.thunkV (ThunkR.execNode (Kont.binop1 op r env K) l env))
  | Node.ifN c t e => (h, Value.thunkV (ThunkR.execNode (Kont.ifK t e env K) c env))
  | Node.funcDef name ps body =>
      let cv := Value.closure ps body env
      (envSet h env name cv, Value.thunkV (ThunkR.applyk K cv))
  | Node.call f args => (h, Value.thunkV (ThunkR.execNode (Kont.afterFunc args env K) f env))
  | Node.block stmts => (h, Value.thunkV (ThunkR.blockT K stmts env))

/-- `for param, arg in zip(self.node.params, args): env.set(param, arg)`
(lines 88-89 and 100-101): positional binding, truncated to the shorter list
by `zip`. -/
def bindPairs (h : Heap) (e : Nat) : List (String × Value) → Heap
  | [] => h
  | (p, a) :: rest => bindPairs (envSet h e p a) e rest

/-- The parameter dict produced by binding `ps` to `args` positionally into an
initially empty scope. -/
def paramBind (ps : List String) (args : List Value) : List (String × Value) :=
  (ps.zip args).foldl (fun vs pa => varsSet vs pa.1 pa.2) []

/-- `FunctionValue.call` (lines 85-101) as it actually executes: allocate one
environment parented at the closure environment, bind parameters positionally,
and return `interpreter.execute(lambda v: v, self.node.body, env)` — a thunk.
`execute` only constructs a thunk and cannot raise `TailCall` (nothing in the
interpreter ever raises it), so the `while True` / `except TailCall` loop
around line 94 runs its `try` body exactly once; see `callLoop` below for the
loop's own logic. -/
def callFn (h : Heap) (ps : List String) (body : Node) (cenv : Nat) (args : List Value) :
    Heap × Value :=
  let he := newEnv h (some cenv)
  let h2 := bindPairs he.1 he.2 (ps.zip args)
  execute Kont.id body he.2 h2

/-- `loop(stmts, res)` of visit_BlockNode (lines 199-205): returns the next
thunk of the statement sequence. -/
def loopFn : List Node → Value → Nat → Kont → ThunkR
  | [], res, _, K => ThunkR.applyk K res
  | first :: rest, _, env, K => ThunkR.execNode (Kont.seqK rest env K) first env

/-- Application of a defunctionalized continuation to a value, mirroring each
source lambda; returns the new heap and either a value/thunk or an error. -/
def applyK : Kont → Value → Heap → Heap × Except Err Value
  | Kont.id, v, h => (h, Except.ok v)
  | Kont.assignK name env K, v, h =>
      -- visit_AssignNode's cont (lines 134-141): try update, except NameError: set
      (match envUpdate h env name v with
       | some h' => applyK K v h'
       | Option.none => applyK K v (envSet h env name v))
  | Kont.binop1 op right env K, v, h =>
      (h, Except.ok (Value.thunkV (ThunkR.execNode (Kont.binop2 op v K) right env)))
  | Kont.binop2 op left K, v, h =>
      (match evalBinop op left v with
       | Except.ok r => applyK K r h
       | Except.error e => (h, Except.error e))
  | Kont.ifK t e env K, v, h =>
      -- cont of visit_IfNode (lines 170-175); the falsy/no-else branch is
      -- `return None`: the continuation K is dropped and Python None is the
      -- thunk's result.
      if truthy v then (h, Except.ok (Value.thunkV (ThunkR.execNode K t env)))
      else
        match e with
        | some eb => (h, Except.ok (Value.thunkV (ThunkR.execNode K eb env)))
        | Option.none => (h, Except.ok Value.none)
  | Kont.afterFunc args env K, v, h =>
      (h, Except.ok (Value.thunkV (ThunkR.evalargsT v args [] env K)))
  | Kont.callArg fv rest acc env K, v, h =>
      -- c (line 192) calls eval_args(rest, acc + [arg_value]) directly
      (match rest with
       | [] =>
         (match fv with
          | Value.closure ps body cenv =>
              let hb := callFn h ps body cenv (acc ++ [v])
              applyK K hb.2 hb.1
          | _ => (h, Except.error Err.notCallable))
       | f :: r =>
          (h, Except.ok (Value.thunkV
            (ThunkR.execNode (Kont.callArg fv r (acc ++ [v]) env K) f env))))
  | Kont.seqK rest env K, v, h =>
      (h, Except.ok (Value.thunkV (loopFn rest v env K)))

/-- Invocation of a thunk (`thunk()` inside `trampoline`). -/
def invokeThunk : ThunkR → Heap → Heap × Except Err Value
  | ThunkR.applyk K v, h => applyK K v h
  | ThunkR.varT K name env, h =>
      (match envGet h env name with
       | some v => applyK K v h
       | Option.none => (h, Except.error (Err.unboundVar name)))
  | ThunkR.execNode K n env, h =>
      let hv := execute K n env h
      (hv.1, Except.ok hv.2)
  | ThunkR.blockT K stmts env, h =>
      (h, Except.ok (Value.thunkV (loopFn stmts Value.none env K)))
  | ThunkR.evalargsT fv args acc env K, h =>
      -- eval_args (lines 185-193)
      (match args with
       | [] =>
         (match fv with
          | Value.closure ps body cenv =>
              let hb := callFn h ps body cenv acc
              applyK K hb.2 hb.1
          | _ => (h, Except.error Err.notCallable))
       | f :: r =>
          (h, Except.ok (Value.thunkV
            (ThunkR.execNode (Kont.callArg fv r acc env K) f env))))

/-- `trampoline` (lines 105-108): `while callable(thunk): thunk = thunk()`.
`fuel` bounds the number of loop iterations (each iteration is exactly one
thunk invocation — a single application of `invokeThunk`); `none` means the
fuel ran out, never that the program failed. -/
def runT : Nat → Heap → Value → Option (Heap × Except Err Value)
  | 0, _, _ => Option.none
  | fuel + 1, h, v =>
    match v with
    | Value.thunkV t =>
      (match invokeThunk t h with
       | (h', Except.ok v') => runT fuel h' v'
       | (h', Except.error e) => some (h', Except.error e))
    | _ => some (h, Except.ok v)

/-- `Interpreter.exec` (lines 114-115): build the initial thunk against the
identity continuation and drive it. -/
def execTop (fuel : Nat) (h : Heap) (n : Node) (env : Nat) :
    Option (Heap × Except Err Value) :=
  let hv := execute Kont.id n env h
  runT fuel hv.1 hv.2

/-- A fresh interpreter's heap: only the global environment. -/
def initHeap : Heap := [⟨[], Option.none⟩]

end MLang

namespace MLang

/-! ### Basic lemmas about the heap and the trampoline -/

theorem set_concat {α : Type} (l : List α) (x y : α) :
    (l ++ [x]).set l.length y = l ++ [y] := by
  induction l with
  | nil => rfl
  | cons a t ih => simp [List.set, ih]

theorem getElem?_concat_len {α : Type} (l : List α) (x : α) :
    (l ++ [x])[l.length]? = some x := by
  induction l with
  | nil => rfl
  | cons a t ih => simp [ih]

theorem getElem?_concat_lt {α : Type} (l : List α) (x : α) (i : Nat) (hi : i < l.length) :
    (l ++ [x])[i]? = l[i]? := by
  rw [List.getElem?_append, if_pos hi]

/-- Any fuel exceeding the scope index gives the same lookup result: the
parent chain strictly descends. -/
theorem envGetA_fuel (h : Heap) (name : String) :
    ∀ i f1 f2, i < f1 → i < f2 → envGetA h f1 i name = envGetA h f2 i name := by
  intro i
  induction i using Nat.strong_induction_on with
  | _ i ih =>
    intro f1 f2 h1 h2
    cases f1 with
    | zero => omega
    | succ f1 =>
      cases f2 with
      | zero => omega
      | succ f2 =>
        simp only [envGetA]
        split
        next => rfl
        next e heq =>
          split
          next v hv => rfl
          next hv =>
            split
            next p hp =>
              by_cases hpi : p < i
              · simp only [hpi, if_true]
                exact ih p hpi f1 f2 (by omega) (by omega)
              · simp [hpi]
            next hp => rfl

theorem envGet_hit {h : Heap} {i : Nat} {e : EnvData} {name : String} {v : Value}
    (hi : h[i]? = some e) (hv : varsGet e.vars name = some v) :
    envGet h i name = some v := by
  simp [envGet, envGetA, hi, hv]

theorem envGet_up {h : Heap} {i p : Nat} {e : EnvData} {name : String}
    (hi : h[i]? = some e) (hv : varsGet e.vars name = Option.none)
    (hp : e.parent = some p) (hlt : p < i) :
    envGet h i name = envGet h p name := by
  have h1 : envGet h i name = envGetA h i p name := by
    simp [envGet, envGetA, hi, hv, hp, hlt]
  rw [h1, envGet]
  exact envGetA_fuel h name p i (p + 1) hlt (Nat.lt_succ_self p)

/-- One trampoline iteration: if the thunk's invocation succeeds, running with
one more unit of fuel equals running the result. -/
theorem runT_bridge {t : ThunkR} {h h' : Heap} {v' : Value}
    (hs : invokeThunk t h = (h', Except.ok v')) (k : Nat) :
    runT (k + 1) h (Value.thunkV t) = runT k h' v' := by
  simp only [runT, hs]

/-- The trampoline stops as soon as the current value is not callable. -/
theorem runT_done (k : Nat) (h : Heap) :
    runT (k + 1) h Value.none = some (h, Except.ok Value.none) := rfl

/-! ### The countdown program (claim C2)

`count(n): if n > 0: count(n - 1)` — a directly self-recursive function whose
recursive call is in tail position, run on a given starting value. -/

def countCond : Node := Node.binaryOp ">" (Node.var "n") (Node.lit (Const.cint 0))

def countArg : Node := Node.binaryOp "-" (Node.var "n") (Node.lit (Const.cint 1))

def countThen : Node := Node.call (Node.var "count") [countArg]

def countBody : Node := Node.ifN countCond countThen Option.none

def countProg (n : Int) : Node :=
  Node.block [Node.funcDef "count" ["n"] countBody,
              Node.call (Node.var "count") [Node.lit (Const.cint n)]]

def countClosure : Value := Value.closure ["n"] countBody 0

/-- The machine state at the start of each loop iteration: the thunk produced
by `FunctionValue.call` for the body, with `a` the activation environment. -/
def countState (a : Nat) : Value :=
  Value.thunkV (ThunkR.execNode (Kont.ifK countThen Option.none a Kont.id) countCond a)

/-- Invariant of a countdown activation: the activation environment `a` binds
only `n` and is parented at the global scope, which binds `count` to the
countdown closure. -/
def countInv (h : Heap) (a : Nat) (n : Int) : Prop :=
  0 < a ∧ h[a]? = some ⟨[("n", Value.int n)], some 0⟩ ∧
    ∃ e, h[0]? = some e ∧ varsGet e.vars "count" = some countClosure

theorem countInv_get_n {h : Heap} {a : Nat} {n : Int} (hI : countInv h a n) :
    envGet h a "n" = some (Value.int n) := by
  obtain ⟨_, ha, _⟩ := hI
  exact envGet_hit ha (by simp [varsGet])

theorem countInv_get_count {h : Heap} {a : Nat} {n : Int} (hI : countInv h a n) :
    envGet h a "count" = some countClosure := by
  obtain ⟨hpos, ha, e, he, hc⟩ := hI
  rw [envGet_up ha (by simp [varsGet]) rfl hpos]
  exact envGet_hit he hc


/-- Terminal iteration: with `n = 0` the condition is falsy and — because the
`If` has no else branch — the trampoline stops with `None` six steps later. -/
theorem countdown_stop (h : Heap) (a : Nat) (hI : countInv h a 0) (k : Nat) :
    runT (k + 6) h (countState a) = some (h, Except.ok Value.none) := by
  have hn := countInv_get_n hI
  have s1 : invokeThunk (ThunkR.execNode (Kont.ifK countThen Option.none a Kont.id) countCond a) h
      = (h, Except.ok (Value.thunkV (ThunkR.execNode
          (Kont.binop1 ">" (Node.lit (Const.cint 0)) a (Kont.ifK countThen Option.none a Kont.id))
          (Node.var "n") a))) := rfl
  have s2 : invokeThunk (ThunkR.execNode
      (Kont.binop1 ">" (Node.lit (Const.cint 0)) a (Kont.ifK countThen Option.none a Kont.id))
      (Node.var "n") a) h
      = (h, Except.ok (Value.thunkV (ThunkR.varT
          (Kont.binop1 ">" (Node.lit (Const.cint 0)) a (Kont.ifK countThen Option.none a Kont.id))
          "n" a))) := rfl
  have s3 : invokeThunk (ThunkR.varT
      (Kont.binop1 ">" (Node.lit (Const.cint 0)) a (Kont.ifK countThen Option.none a Kont.id))
      "n" a) h
      = (h, Except.ok (Value.thunkV (ThunkR.execNode
          (Kont.binop2 ">" (Value.int 0) (Kont.ifK countThen Option.none a Kont.id))
          (Node.lit (Const.cint 0)) a))) := by
    simp [invokeThunk, hn, applyK]
  have s4 : invokeThunk (ThunkR.execNode
      (Kont.binop2 ">" (Value.int 0) (Kont.ifK countThen Option.none a Kont.id))
      (Node.lit (Const.cint 0)) a) h
      = (h, Except.ok (Value.thunkV (ThunkR.applyk
          (Kont.binop2 ">" (Value.int 0) (Kont.ifK countThen Option.none a Kont.id))
          (Value.int 0)))) := rfl
  have s5 : invokeThunk (ThunkR.applyk
      (Kont.binop2 ">" (Value.int 0) (Kont.ifK countThen Option.none a Kont.id))
      (Value.int 0)) h
      = (h, Except.ok Value.none) := rfl
  have e6 : k + 6 = k+1+1+1+1+1+1 := rfl
  simp only [countState]
  rw [e6, runT_bridge s1, runT_bridge s2, runT_bridge s3, runT_bridge s4, runT_bridge s5]
  exact runT_done k h

/-- One tail iteration: with `n > 0` the body calls `count(n - 1)`; fourteen
trampoline steps later the machine is at the start of the next body iteration,
with exactly one new environment appended to the heap. -/
theorem countdown_iter (h : Heap) (a : Nat) (n : Int) (hI : countInv h a n)
    (hn0 : 0 < n) (k : Nat) :
    runT (k + 14) h (countState a) =
      runT k (h ++ [⟨[("n", Value.int (n - 1))], some 0⟩]) (countState h.length) := by
  have hn := countInv_get_n hI
  have hc := countInv_get_count hI
  have hq : (0 : ℚ) < (n : ℚ) := by exact_mod_cast hn0
  have s1 : invokeThunk (ThunkR.execNode (Kont.ifK countThen Option.none a Kont.id) countCond a) h
      = (h, Except.ok (Value.thunkV (ThunkR.execNode
          (Kont.binop1 ">" (Node.lit (Const.cint 0)) a (Kont.ifK countThen Option.none a Kont.id))
          (Node.var "n") a))) := rfl
  have s2 : invokeThunk (ThunkR.execNode
      (Kont.binop1 ">" (Node.lit (Const.cint 0)) a (Kont.ifK countThen Option.none a Kont.id))
      (Node.var "n") a) h
      = (h, Except.ok (Value.thunkV (ThunkR.varT
          (Kont.binop1 ">" (Node.lit (Const.cint 0)) a (Kont.ifK countThen Option.none a Kont.id))
          "n" a))) := rfl
  have s3 : invokeThunk (ThunkR.varT
      (Kont.binop1 ">" (Node.lit (Const.cint 0)) a (Kont.ifK countThen Option.none a Kont.id))
      "n" a) h
      = (h, Except.ok (Value.thunkV (ThunkR.execNode
          (Kont.binop2 ">" (Value.int n) (Kont.ifK countThen Option.none a Kont.id))
          (Node.lit (Const.cint 0)) a))) := by
    simp [invokeThunk, hn, applyK]
  have s4 : invokeThunk (ThunkR.execNode
      (Kont.binop2 ">" (Value.int n) (Kont.ifK countThen Option.none a Kont.id))
      (Node.lit (Const.cint 0)) a) h
      = (h, Except.ok (Value.thunkV (ThunkR.applyk
          (Kont.binop2 ">" (Value.int n) (Kont.ifK countThen Option.none a Kont.id))
          (Value.int 0)))) := rfl
  have s5 : invokeThunk (ThunkR.applyk
      (Kont.binop2 ">" (Value.int n) (Kont.ifK countThen Option.none a Kont.id))
      (Value.int 0)) h
      = (h, Except.ok (Value.thunkV (ThunkR.execNode Kont.id countThen a))) := by
    simp [invokeThunk, applyK, evalBinop, cmp, toNum, numToQ, truthy, hq]
  have s6 : invokeThunk (ThunkR.execNode Kont.id countThen a) h
      = (h, Except.ok (Value.thunkV (ThunkR.execNode
          (Kont.afterFunc [countArg] a Kont.id) (Node.var "count") a))) := rfl
  have s7 : invokeThunk (ThunkR.execNode (Kont.afterFunc [countArg] a Kont.id)
      (Node.var "count") a) h
      = (h, Except.ok (Value.thunkV (ThunkR.varT
          (Kont.afterFunc [countArg] a Kont.id) "count" a))) := rfl
  have s8 : invokeThunk (ThunkR.varT (Kont.afterFunc [countArg] a Kont.id) "count" a) h
      = (h, Except.ok (Value.thunkV
          (ThunkR.evalargsT countClosure [countArg] [] a Kont.id))) := by
    simp [invokeThunk, hc, applyK]
  have s9 : invokeThunk (ThunkR.evalargsT countClosure [countArg] [] a Kont.id) h
      = (h, Except.ok (Value.thunkV (ThunkR.execNode
          (Kont.callArg countClosure [] [] a Kont.id) countArg a))) := rfl
  have s10 : invokeThunk (ThunkR.execNode (Kont.callArg countClosure [] [] a Kont.id)
      countArg a) h
      = (h, Except.ok (Value.thunkV (ThunkR.execNode
          (Kont.binop1 "-" (Node.lit (Const.cint 1)) a (Kont.callArg countClosure [] [] a Kont.id))
          (Node.var "n") a))) := rfl
  have s11 : invokeThunk (ThunkR.execNode
      (Kont.binop1 "-" (Node.lit (Const.cint 1)) a (Kont.callArg countClosure [] [] a Kont.id))
      (Node.var "n") a) h
      = (h, Except.ok (Value.thunkV (ThunkR.varT
          (Kont.binop1 "-" (Node.lit (Const.cint 1)) a (Kont.callArg countClosure [] [] a Kont.id))
          "n" a))) := rfl
  have s12 : invokeThunk (ThunkR.varT
      (Kont.binop1 "-" (Node.lit (Const.cint 1)) a (Kont.callArg countClosure [] [] a Kont.id))
      "n" a) h
      = (h, Except.ok (Value.thunkV (ThunkR.execNode
          (Kont.binop2 "-" (Value.int n) (Kont.callArg countClosure [] [] a Kont.id))
          (Node.lit (Const.cint 1)) a))) := by
    simp [invokeThunk, hn, applyK]
  have s13 : invokeThunk (ThunkR.execNode
      (Kont.binop2 "-" (Value.int n) (Kont.callArg countClosure [] [] a Kont.id))
      (Node.lit (Const.cint 1)) a) h
      = (h, Except.ok (Value.thunkV (ThunkR.applyk
          (Kont.binop2 "-" (Value.int n) (Kont.callArg countClosure [] [] a Kont.id))
          (Value.int 1)))) := rfl
  have s14 : invokeThunk (ThunkR.applyk
      (Kont.binop2 "-" (Value.int n) (Kont.callArg countClosure [] [] a Kont.id))
      (Value.int 1)) h
      = (h ++ [⟨[("n", Value.int (n - 1))], some 0⟩], Except.ok (countState h.length)) := by
    simp [invokeThunk, applyK, evalBinop, arith, toNum, callFn, newEnv, bindPairs,
          envSet, getElem?_concat_len, set_concat, varsSet, execute, countState,
          countBody, countClosure]
  have e14 : k + 14 = k+1+1+1+1+1+1+1+1+1+1+1+1+1+1 := rfl
  simp only [countState]
  rw [e14, runT_bridge s1, runT_bridge s2, runT_bridge s3, runT_bridge s4, runT_bridge s5,
      runT_bridge s6, runT_bridge s7, runT_bridge s8, runT_bridge s9, runT_bridge s10,
      runT_bridge s11, runT_bridge s12, runT_bridge s13, runT_bridge s14]
  simp only [countState]


/-- The countdown loop terminates for every starting value, within fuel linear
in the iteration count (each fuel unit is one trampoline step, i.e. one
invocation of a single thunk). -/
theorem countdown_runs (m : Nat) : ∀ (h : Heap) (a : Nat), countInv h a (m : Int) →
    ∃ k, k ≤ 14 * m + 6 ∧ ∃ h', runT k h (countState a) = some (h', Except.ok Value.none) := by
  induction m with
  | zero =>
    intro h a hI
    exact ⟨6, by omega, h, countdown_stop h a (by simpa using hI) 0⟩
  | succ m ih =>
    intro h a hI
    have h0pos : 0 < h.length := by
      obtain ⟨_, _, e, he, _⟩ := hI
      cases h with
      | nil => simp at he
      | cons x xs => simp
    have hI' : countInv (h ++ [⟨[("n", Value.int (m : Int))], some 0⟩]) h.length (m : Int) := by
      obtain ⟨hpos, ha, e, he, hc⟩ := hI
      refine ⟨h0pos, getElem?_concat_len h _, e, ?_, hc⟩
      rw [getElem?_concat_lt _ _ 0 h0pos]
      exact he
    obtain ⟨k, hk, h', hrun⟩ := ih _ _ hI'
    refine ⟨k + 14, by omega, h', ?_⟩
    have hpos' : (0 : Int) < ((m + 1 : Nat) : Int) := by exact_mod_cast Nat.succ_pos m
    have hiter := countdown_iter h a ((m + 1 : Nat) : Int) hI hpos' k
    have hcast : ((m + 1 : Nat) : Int) - 1 = (m : Int) := by push_cast; ring
    rw [hiter, hcast]
    exact hrun

/-- The interpreter's global heap right after `count` is defined. -/
def gHeap : Heap := [⟨[("count", countClosure)], Option.none⟩]

/-- The ten concrete trampoline steps from `exec(countProg n)` to the first
body iteration: define `count`, look it up, evaluate the literal argument, and
let `FunctionValue.call` allocate the first activation environment. -/
theorem countdown_top (n : Int) (k : Nat) :
    execTop (k + 10) initHeap (countProg n) 0 =
      runT k (gHeap ++ [⟨[("n", Value.int n)], some 0⟩]) (countState 1) := rfl

/-- Claim C2: a directly self-tail-recursive countdown terminates normally for
every starting value, and in particular for 100000 iterations; the required
trampoline fuel is linear in the iteration count and each fuel unit is a
single first-order step (`invokeThunk`), so the driver loop — not the native
call stack — carries the whole recursion. -/
theorem C2_countdown_terminates :
    (∀ n : Nat, ∃ fuel, fuel ≤ 14 * n + 16 ∧ ∃ h',
        execTop fuel initHeap (countProg (n : Int)) 0 = some (h', Except.ok Value.none)) ∧
    (∃ fuel, fuel ≤ 1400016 ∧ ∃ h',
        execTop fuel initHeap (countProg 100000) 0 = some (h', Except.ok Value.none)) := by
  have main : ∀ n : Nat, ∃ fuel, fuel ≤ 14 * n + 16 ∧ ∃ h',
      execTop fuel initHeap (countProg (n : Int)) 0 = some (h', Except.ok Value.none) := by
    intro n
    have hI : countInv (gHeap ++ [⟨[("n", Value.int (n : Int))], some 0⟩]) 1 (n : Int) :=
      ⟨Nat.one_pos, rfl, ⟨[("count", countClosure)], Option.none⟩, rfl, rfl⟩
    obtain ⟨k, hk, h', hrun⟩ := countdown_runs n _ 1 hI
    exact ⟨k + 10, by omega, h', by rw [countdown_top (n : Int) k]; exact hrun⟩
  refine ⟨main, ?_⟩
  obtain ⟨f, hf, h', hr⟩ := main 100000
  refine ⟨f, by omega, h', ?_⟩
  have : ((100000 : Nat) : Int) = (100000 : Int) := by norm_num
  rw [this] at hr
  exact hr


/-! ### Claim C1: `If` with falsy condition and no else branch -/

/-- `Block [If(False, y := 7), z := 1]`. -/
def c1prog : Node :=
  Node.block
    [Node.ifN (Node.lit (Const.cbool false)) (Node.assign "y" (Node.lit (Const.cint 7)))
       Option.none,
     Node.assign "z" (Node.lit (Const.cint 1))]

/-- Claim C1 is false on the code: in a block whose first statement is an `If`
with a falsy condition and no else branch, evaluation stops with `None` —
the continuation is never invoked, so the trailing `z := 1` never runs (the
final heap is the untouched initial heap) and the block does not yield its
last statement's value `1`. -/
theorem C1_counterexample :
    execTop 20 initHeap c1prog 0 = some (initHeap, Except.ok Value.none) ∧
    envGet initHeap 0 "z" = Option.none ∧ envGet initHeap 0 "y" = Option.none :=
  ⟨rfl, rfl, rfl⟩

/-- Amended claim C1: when the condition is falsy and the else branch is
absent, `visit_IfNode`'s condition continuation returns Python `None` without
invoking the current continuation `K` (the result does not depend on `K`), and
the trampoline — seeing a non-callable value — immediately terminates the
whole evaluation with `None`, abandoning any pending work such as the
remaining statements of an enclosing `Block`. -/
theorem C1_if_falsy_no_else_halts (v : Value) (t : Node) (env : Nat) (K : Kont)
    (h : Heap) (hf : truthy v = false) :
    applyK (Kont.ifK t Option.none env K) v h = (h, Except.ok Value.none) ∧
    ∀ fuel, runT (fuel + 2) h
        (Value.thunkV (ThunkR.applyk (Kont.ifK t Option.none env K) v))
      = some (h, Except.ok Value.none) := by
  have hs : invokeThunk (ThunkR.applyk (Kont.ifK t Option.none env K) v) h
      = (h, Except.ok Value.none) := by
    simp [invokeThunk, applyK, hf]
  refine ⟨by simp [applyK, hf], fun fuel => ?_⟩
  have e2 : fuel + 2 = fuel + 1 + 1 := rfl
  rw [e2, runT_bridge hs]
  exact runT_done fuel h

theorem C1_if_falsy_no_else_halts_witness :
    applyK (Kont.ifK (Node.assign "y" (Node.lit (Const.cint 7))) Option.none 0 Kont.id)
        (Value.bool false) initHeap = (initHeap, Except.ok Value.none) ∧
    runT 2 initHeap
        (Value.thunkV (ThunkR.applyk
          (Kont.ifK (Node.assign "y" (Node.lit (Const.cint 7))) Option.none 0 Kont.id)
          (Value.bool false)))
      = some (initHeap, Except.ok Value.none) :=
  ⟨(C1_if_falsy_no_else_halts (Value.bool false) (Node.assign "y" (Node.lit (Const.cint 7)))
      0 Kont.id initHeap rfl).1,
   (C1_if_falsy_no_else_halts (Value.bool false) (Node.assign "y" (Node.lit (Const.cint 7)))
      0 Kont.id initHeap rfl).2 0⟩

/-! ### Claim C8: call evaluation order and the `NotCallable` check -/

/-- `Block [a := 1, 5(b := 2, c := b + 10)]` — a call whose function position
is a literal number and whose argument expressions have visible side effects. -/
def c8prog : Node :=
  Node.block
    [Node.assign "a" (Node.lit (Const.cint 1)),
     Node.call (Node.lit (Const.cint 5))
       [Node.assign "b" (Node.lit (Const.cint 2)),
        Node.assign "c" (Node.binaryOp "+" (Node.var "b") (Node.lit (Const.cint 10)))]]

/-- Claim C8: the function expression is dispatched first (`after_func` is the
continuation of `funcExpr`); while arguments remain, `eval_args` evaluates
them left to right without inspecting the callee; the `NotCallable` check
fires only once the argument list is exhausted; and on the concrete program
the failure arrives with every earlier side effect (`a := 1`, both argument
assignments, where `c` reads the just-assigned `b`) still in the heap. -/
theorem C8_call_evaluation_order :
    (∀ (K : Kont) (f : Node) (args : List Node) (env : Nat) (h : Heap),
        execute K (Node.call f args) env h
          = (h, Value.thunkV (ThunkR.execNode (Kont.afterFunc args env K) f env))) ∧
    (∀ (fv : Value) (a : Node) (r : List Node) (acc : List Value) (env : Nat)
        (K : Kont) (h : Heap),
        invokeThunk (ThunkR.evalargsT fv (a :: r) acc env K) h
          = (h, Except.ok (Value.thunkV (ThunkR.execNode (Kont.callArg fv r acc env K) a env)))) ∧
    (∀ (fv : Value) (acc : List Value) (env : Nat) (K : Kont) (h : Heap),
        (∀ ps body cenv, fv ≠ Value.closure ps body cenv) →
        invokeThunk (ThunkR.evalargsT fv [] acc env K) h = (h, Except.error Err.notCallable)) ∧
    (∀ (fv : Value) (acc : List Value) (env : Nat) (K : Kont) (v : Value) (h : Heap),
        (∀ ps body cenv, fv ≠ Value.closure ps body cenv) →
        applyK (Kont.callArg fv [] acc env K) v h = (h, Except.error Err.notCallable)) ∧
    execTop 40 initHeap c8prog 0 =
      some ([⟨[("a", Value.int 1), ("b", Value.int 2), ("c", Value.int 12)], Option.none⟩],
            Except.error Err.notCallable) := by
  refine ⟨fun K f args env h => rfl, fun fv a r acc env K h => rfl, ?_, ?_, rfl⟩
  · intro fv acc env K h hfv
    cases fv with
    | closure ps body cenv => exact absurd rfl (hfv ps body cenv)
    | _ => rfl
  · intro fv acc env K v h hfv
    cases fv with
    | closure ps body cenv => exact absurd rfl (hfv ps body cenv)
    | _ => rfl

theorem C8_call_evaluation_order_witness :
    invokeThunk (ThunkR.evalargsT (Value.int 5) [] [] 0 Kont.id) initHeap
      = (initHeap, Except.error Err.notCallable) ∧
    applyK (Kont.callArg (Value.int 5) [] [] 0 Kont.id) (Value.int 2) initHeap
      = (initHeap, Except.error Err.notCallable) :=
  ⟨C8_call_evaluation_order.2.2.1 (Value.int 5) [] 0 Kont.id initHeap (by intro ps body cenv h; cases h),
   C8_call_evaluation_order.2.2.2.1 (Value.int 5) [] 0 Kont.id (Value.int 2) initHeap
     (by intro ps body cenv h; cases h)⟩


/-! ### Claim C9: the binary operator table -/

/-- Claim C9, against the code: the eight supported operators apply the host
operation (ints stay ints for `+ - *`; `/` is Python true division, producing
a host float — rationals here; comparisons produce booleans).  For an operator
outside the set (e.g. `%`), the code *tries* to raise
`ValueError(f"Unknown operator: {node.op}")`, but `node` is not in scope in
`__evaluate_binary_op`, so the f-string itself raises
`NameError: name 'node' is not defined` — the failure is fatal but it is not
the `UnknownOperator` error and it does not carry the offending operator. -/
theorem C9_binary_operators :
    (∀ l r : Int, evalBinop "+" (Value.int l) (Value.int r) = Except.ok (Value.int (l + r))) ∧
    (∀ l r : Int, evalBinop "-" (Value.int l) (Value.int r) = Except.ok (Value.int (l - r))) ∧
    (∀ l r : Int, evalBinop "*" (Value.int l) (Value.int r) = Except.ok (Value.int (l * r))) ∧
    (∀ l r : Int, evalBinop "/" (Value.int l) (Value.int r) =
      if (r : ℚ) = 0 then Except.error Err.zeroDivision
      else Except.ok (Value.float ((l : ℚ) / (r : ℚ)))) ∧
    (∀ l r : Int, evalBinop "<" (Value.int l) (Value.int r)
      = Except.ok (Value.bool (decide (l < r)))) ∧
    (∀ l r : Int, evalBinop ">" (Value.int l) (Value.int r)
      = Except.ok (Value.bool (decide (l > r)))) ∧
    (∀ l r : Int, evalBinop "==" (Value.int l) (Value.int r)
      = Except.ok (Value.bool (decide (l = r)))) ∧
    (∀ l r : Int, evalBinop "!=" (Value.int l) (Value.int r)
      = Except.ok (Value.bool (! decide (l = r)))) ∧
    (∀ l r : Value, evalBinop "%" l r = Except.error (Err.hostNameError "node")) ∧
    (∀ (K : Kont) (h : Heap), applyK (Kont.binop2 "%" (Value.int 1) K) (Value.int 2) h
      = (h, Except.error (Err.hostNameError "node"))) ∧
    execTop 10 initHeap (Node.binaryOp "%" (Node.lit (Const.cint 1)) (Node.lit (Const.cint 2))) 0
      = some (initHeap, Except.error (Err.hostNameError "node")) := by
  refine ⟨fun l r => rfl, fun l r => rfl, fun l r => rfl, fun l r => ?_, fun l r => ?_,
    fun l r => ?_, fun l r => ?_, fun l r => ?_, fun l r => rfl, fun K h => rfl, rfl⟩
  · simp [evalBinop, toNum, numToQ]
  · simp [evalBinop, cmp, toNum, numToQ]
  · simp [evalBinop, cmp, toNum, numToQ]
  · simp [evalBinop, pyEq, toNum, numToQ]
  · simp [evalBinop, pyEq, toNum, numToQ]


/-! ### Claim C7: assignment semantics -/

theorem varsGet_varsSet_self (vs : List (String × Value)) (name : String) (v : Value) :
    varsGet (varsSet vs name v) name = some v := by
  induction vs with
  | nil => simp [varsSet, varsGet]
  | cons kv rest ih =>
    by_cases hk : kv.1 = name
    · simp [varsSet, hk, varsGet]
    · simp [varsSet, hk, varsGet, ih]

theorem varsGet_varsSet_ne (vs : List (String × Value)) (name k : String) (v : Value)
    (hk : k ≠ name) : varsGet (varsSet vs name v) k = varsGet vs k := by
  induction vs with
  | nil =>
    simp only [varsSet, varsGet]
    rw [if_neg (fun hh => hk hh.symm)]
  | cons kv rest ih =>
    rcases kv with ⟨k1, v1⟩
    by_cases h1 : k1 = name
    · subst h1
      simp only [varsSet, if_pos rfl, varsGet]
      rw [if_neg (fun hh => hk hh.symm), if_neg (fun hh => hk hh.symm)]
    · simp only [varsSet, if_neg h1, varsGet]
      by_cases h2 : k1 = k
      · rw [if_pos h2, if_pos h2]
      · rw [if_neg h2, if_neg h2]
        exact ih

theorem getElem?_some_lt {α : Type} {l : List α} {i : Nat} {a : α}
    (h : l[i]? = some a) : i < l.length := by
  by_contra hc
  push_neg at hc
  rw [List.getElem?_eq_none hc] at h
  cases h

theorem envSet_getElem_ne (h : Heap) (j : Nat) (name : String) (v : Value) (x : Nat)
    (hx : x ≠ j) : (envSet h j name v)[x]? = h[x]? := by
  unfold envSet
  cases hj : h[j]? with
  | none => rfl
  | some e => simp [List.getElem?_set, Ne.symm hx]

/-- `Environment.update` writes exactly where `envResolve` points: the
innermost scope on the chain that already binds the name. -/
theorem envUpdateA_resolveA (h : Heap) (v : Value) (name : String) :
    ∀ f i, envUpdateA h v f i name
      = (envResolveA h f i name).map (fun j => envSet h j name v) := by
  intro f
  induction f with
  | zero => intro i; rfl
  | succ f ih =>
    intro i
    simp only [envUpdateA, envResolveA]
    split
    next => rfl
    next e heq =>
      by_cases hs : (varsGet e.vars name).isSome
      · simp [hs]
      · simp only [hs, if_false]
        cases hp : e.parent with
        | none => rfl
        | some p =>
          by_cases hpi : p < i
          · simp [hpi, ih p]
          · simp [hpi]

theorem envUpdate_resolve (h : Heap) (i : Nat) (name : String) (v : Value) :
    envUpdate h i name v = (envResolve h i name).map (fun j => envSet h j name v) :=
  envUpdateA_resolveA h v name (i + 1) i

theorem envResolveA_le (h : Heap) (name : String) :
    ∀ f i j, envResolveA h f i name = some j → j ≤ i := by
  intro f
  induction f with
  | zero => intro i j hj; cases hj
  | succ f ih =>
    intro i j hj
    simp only [envResolveA] at hj
    split at hj
    next => cases hj
    next e heq =>
      split at hj
      next hs => cases hj; omega
      next hs =>
        split at hj
        next p hp =>
          split at hj
          next hpi =>
            have := ih p j hj
            omega
          next hpi => cases hj
        next hp => cases hj

theorem envResolveA_fuel (h : Heap) (name : String) :
    ∀ i f1 f2, i < f1 → i < f2 → envResolveA h f1 i name = envResolveA h f2 i name := by
  intro i
  induction i using Nat.strong_induction_on with
  | _ i ih =>
    intro f1 f2 h1 h2
    cases f1 with
    | zero => omega
    | succ f1 =>
      cases f2 with
      | zero => omega
      | succ f2 =>
        simp only [envResolveA]
        split
        next => rfl
        next e heq =>
          by_cases hs : (varsGet e.vars name).isSome
          · simp [hs]
          · simp only [hs, if_false]
            cases hp : e.parent with
            | none => rfl
            | some p =>
              by_cases hpi : p < i
              · simp only [hpi, if_true]
                exact ih p hpi f1 f2 (by omega) (by omega)
              · simp [hpi]

/-- Inverting one step of the innermost-binding search. -/
theorem envResolve_inv {h : Heap} {i : Nat} {name : String} {j : Nat}
    (hr : envResolve h i name = some j) :
    (∃ e, h[i]? = some e ∧ (varsGet e.vars name).isSome ∧ j = i) ∨
    (∃ e p, h[i]? = some e ∧ varsGet e.vars name = Option.none ∧ e.parent = some p ∧
      p < i ∧ envResolve h p name = some j) := by
  unfold envResolve at hr
  simp only [envResolveA] at hr
  split at hr
  next => cases hr
  next e heq =>
    split at hr
    next hs =>
      left
      cases hr
      exact ⟨e, heq, hs, rfl⟩
    next hs =>
      split at hr
      next p hp =>
        split at hr
        next hpi =>
          right
          refine ⟨e, p, heq, ?_, hp, hpi, ?_⟩
          · cases hv : varsGet e.vars name with
            | none => rfl
            | some w => rw [hv] at hs; simp at hs
          · rw [envResolve,
              envResolveA_fuel h name p (p + 1) i (Nat.lt_succ_self p) hpi]
            exact hr
        next hpi => cases hr
      next hp => cases hr

/-- Mutating the scope that `envResolve` designates is visible from every
environment whose chain resolves the name to that same scope — this is the
"closures observe updates" property. -/
theorem envGet_set_resolve (h : Heap) (name : String) (v : Value) :
    ∀ k j, envResolve h k name = some j →
      envGet (envSet h j name v) k name = some v := by
  intro k
  induction k using Nat.strong_induction_on with
  | _ k ih =>
    intro j hr
    rcases envResolve_inv hr with ⟨e, he, _, hji⟩ | ⟨e, p, he, hn, hp, hlt, hrec⟩
    · subst hji
      have hk : j < h.length := getElem?_some_lt he
      have hset : (envSet h j name v)[j]? = some ⟨varsSet e.vars name v, e.parent⟩ := by
        unfold envSet
        rw [he]
        simp [List.getElem?_set, hk]
      exact envGet_hit hset (varsGet_varsSet_self e.vars name v)
    · have hj : j ≤ p := envResolveA_le h name (p + 1) p j hrec
      have hkj : k ≠ j := by omega
      have he' : (envSet h j name v)[k]? = some e := by
        rw [envSet_getElem_ne h j name v k hkj]
        exact he
      rw [envGet_up he' hn hp hlt]
      exact ih p hlt j hrec

/-- Claim C7: evaluating an `Assign` first evaluates the value, then the
continuation `cont` applies the update-or-define policy and hands the assigned
value to the outer continuation.  If the name resolves to an existing binding
(innermost scope `j` on the chain), that binding is mutated in place and every
environment resolving the name to `j` (e.g. a closure sharing the ancestor
scope) subsequently reads the new value; if the name resolves nowhere, a new
binding is created in the current innermost scope. -/
theorem C7_assign_semantics (h : Heap) (env : Nat) (name : String) (v : Value) (K : Kont) :
    (∀ j, envResolve h env name = some j →
      applyK (Kont.assignK name env K) v h = applyK K v (envSet h j name v) ∧
      ∀ k, envResolve h k name = some j →
        envGet (envSet h j name v) k name = some v) ∧
    (envResolve h env name = Option.none → env < h.length →
      applyK (Kont.assignK name env K) v h = applyK K v (envSet h env name v) ∧
      envGet (envSet h env name v) env name = some v) := by
  constructor
  · intro j hj
    constructor
    · simp [applyK, envUpdate_resolve, hj]
    · intro k hk
      exact envGet_set_resolve h name v k j hk
  · intro hnone hlt
    constructor
    · simp [applyK, envUpdate_resolve, hnone]
    · have he : h[env]? = some h[env] := List.getElem?_eq_getElem hlt
      have hset : (envSet h env name v)[env]? = some ⟨varsSet h[env].vars name v, h[env].parent⟩ := by
        unfold envSet
        rw [he]
        simp [List.getElem?_set, hlt]
      exact envGet_hit hset (varsGet_varsSet_self _ name v)

theorem C7_assign_semantics_witness :
    (applyK (Kont.assignK "x" 1 Kont.id) (Value.int 5)
        [⟨[("x", Value.int 0)], Option.none⟩, ⟨[], some 0⟩]
      = applyK Kont.id (Value.int 5) (envSet [⟨[("x", Value.int 0)], Option.none⟩, ⟨[], some 0⟩] 0 "x" (Value.int 5)) ∧
      envGet (envSet [⟨[("x", Value.int 0)], Option.none⟩, ⟨[], some 0⟩] 0 "x" (Value.int 5)) 1 "x"
        = some (Value.int 5)) ∧
    (applyK (Kont.assignK "y" 1 Kont.id) (Value.int 9)
        [⟨[("x", Value.int 0)], Option.none⟩, ⟨[], some 0⟩]
      = applyK Kont.id (Value.int 9) (envSet [⟨[("x", Value.int 0)], Option.none⟩, ⟨[], some 0⟩] 1 "y" (Value.int 9)) ∧
      envGet (envSet [⟨[("x", Value.int 0)], Option.none⟩, ⟨[], some 0⟩] 1 "y" (Value.int 9)) 1 "y"
        = some (Value.int 9)) := by
  constructor
  · have hmain := (C7_assign_semantics [⟨[("x", Value.int 0)], Option.none⟩, ⟨[], some 0⟩]
      1 "x" (Value.int 5) Kont.id).1 0 rfl
    exact ⟨hmain.1, hmain.2 1 rfl⟩
  · have hmain := (C7_assign_semantics [⟨[("x", Value.int 0)], Option.none⟩, ⟨[], some 0⟩]
      1 "y" (Value.int 9) Kont.id).2 rfl (by decide)
    exact hmain


/-! ### Claim C3: one environment per activation; the tail-call loop -/

def isFuncDefB : Node → Bool
  | Node.funcDef _ _ _ => true
  | _ => false

/-- `execute` mutates the heap only when dispatching a `FunctionNode` (the
eager `env.set(node.name, func)` at line 180). -/
theorem execute_heap (K : Kont) (n : Node) (env : Nat) (h : Heap)
    (hb : isFuncDefB n = false) : (execute K n env h).1 = h := by
  cases n <;> first
    | rfl
    | exact absurd hb (by simp [isFuncDefB])

theorem bindPairs_concat :
    ∀ (pairs : List (String × Value)) (h : Heap) (vs : List (String × Value)) (par : Option Nat),
      bindPairs (h ++ [⟨vs, par⟩]) h.length pairs
        = h ++ [⟨pairs.foldl (fun a pa => varsSet a pa.1 pa.2) vs, par⟩] := by
  intro pairs
  induction pairs with
  | nil => intro h vs par; rfl
  | cons pa rest ih =>
    intro h vs par
    have hset : envSet (h ++ [⟨vs, par⟩]) h.length pa.1 pa.2
        = h ++ [⟨varsSet vs pa.1 pa.2, par⟩] := by
      unfold envSet
      rw [getElem?_concat_len]
      exact set_concat h ⟨vs, par⟩ ⟨varsSet vs pa.1 pa.2, par⟩
    show bindPairs (envSet (h ++ [⟨vs, par⟩]) h.length pa.1 pa.2) h.length rest = _
    rw [hset, ih]
    rfl

/-- `for param, arg in zip(params, args): env.set(param, arg)` applied to the
dict `vars0` — used both at activation entry (lines 88-89, `vars0 = {}`) and
when a tail-call signal overwrites the same environment (lines 100-101). -/
def overwriteParams (vars0 : List (String × Value)) (ps : List String)
    (args : List Value) : List (String × Value) :=
  (ps.zip args).foldl (fun vs pa => varsSet vs pa.1 pa.2) vars0

/-- Outcome of one evaluation of a function body, as seen by the `while True`
loop of `FunctionValue.call`: either an ordinary value or a `TailCall` signal
carrying the target's identity and the new arguments. -/
inductive BodyRes where
  | normal (v : Value)
  | signal (target : Nat) (args : List Value)

/-- The `while True` / `except TailCall` loop of `FunctionValue.call`
(src/interpreter.py lines 91-101), generalized over the outcome `runBody` of
one body evaluation so that the handler is exercisable.  (In the interpreter
as composed, `interpreter.execute` only constructs and returns a thunk and
nothing in the program ever raises `TailCall`, so there `runBody` always
yields `normal` and the loop body runs exactly once.)  `fuel` bounds the
number of loop iterations; errors model the `raise` re-propagating a signal
for a different function. -/
def callLoop (selfId : Nat) (ps : List String)
    (runBody : List (String × Value) → BodyRes) :
    Nat → List (String × Value) → Option (Except (Nat × List Value) Value)
  | 0, _ => Option.none
  | fuel + 1, vars =>
    match runBody vars with
    | BodyRes.normal v => some (Except.ok v)
    | BodyRes.signal t args =>
      if t = selfId then callLoop selfId ps runBody fuel (overwriteParams vars ps args)
      else some (Except.error (t, args))

/-- Claim C3.  Part 1: `FunctionValue.call` allocates exactly one new
environment per activation — the heap grows by exactly the one entry, whose
parent is the closure environment and whose variables are the positional
parameter binding (stated for bodies that are not themselves `FunctionDef`
nodes, since dispatching such a body would additionally write the function's
name — `execute`'s only heap effect, see `execute_heap`).  Parts 2-4: the
call-frame loop re-runs the body after overwriting the same variable dict
(no new environment) when a signal targets this same function by identity;
propagates a signal for a different function unchanged; and returns an
ordinary result as-is. -/
theorem C3_call_activation :
    (∀ (h : Heap) (ps : List String) (body : Node) (cenv : Nat) (args : List Value),
        isFuncDefB body = false →
        callFn h ps body cenv args =
          (h ++ [⟨paramBind ps args, some cenv⟩],
           (execute Kont.id body h.length (h ++ [⟨paramBind ps args, some cenv⟩])).2)) ∧
    (∀ (selfId : Nat) (ps : List String) (runBody : List (String × Value) → BodyRes)
        (fuel : Nat) (vars : List (String × Value)) (args : List Value),
        runBody vars = BodyRes.signal selfId args →
        callLoop selfId ps runBody (fuel + 1) vars =
          callLoop selfId ps runBody fuel (overwriteParams vars ps args)) ∧
    (∀ (selfId : Nat) (ps : List String) (runBody : List (String × Value) → BodyRes)
        (fuel : Nat) (vars : List (String × Value)) (t : Nat) (args : List Value),
        runBody vars = BodyRes.signal t args → t ≠ selfId →
        callLoop selfId ps runBody (fuel + 1) vars = some (Except.error (t, args))) ∧
    (∀ (selfId : Nat) (ps : List String) (runBody : List (String × Value) → BodyRes)
        (fuel : Nat) (vars : List (String × Value)) (v : Value),
        runBody vars = BodyRes.normal v →
        callLoop selfId ps runBody (fuel + 1) vars = some (Except.ok v)) := by
  refine ⟨?_, ?_, ?_, ?_⟩
  · intro h ps body cenv args hb
    show (let he := newEnv h (some cenv);
          let h2 := bindPairs he.1 he.2 (ps.zip args);
          execute Kont.id body he.2 h2) = _
    simp only [newEnv]
    rw [bindPairs_concat (ps.zip args) h [] (some cenv)]
    simp only [paramBind]
    rcases hE : execute Kont.id body (List.length h)
        (h ++ [⟨List.foldl (fun a pa => varsSet a pa.1 pa.2) [] (ps.zip args), some cenv⟩])
      with ⟨hh, vv⟩
    have h1 : hh = h ++ [⟨List.foldl (fun a pa => varsSet a pa.1 pa.2) [] (ps.zip args), some cenv⟩] := by
      have h2 := execute_heap Kont.id body (List.length h)
        (h ++ [⟨List.foldl (fun a pa => varsSet a pa.1 pa.2) [] (ps.zip args), some cenv⟩]) hb
      rw [hE] at h2
      exact h2
    rw [hE, h1]
  · intro selfId ps runBody fuel vars args hsig
    simp [callLoop, hsig]
  · intro selfId ps runBody fuel vars t args hsig hne
    simp [callLoop, hsig, hne]
  · intro selfId ps runBody fuel vars v hnorm
    simp [callLoop, hnorm]

theorem C3_call_activation_witness :
    (callFn initHeap ["n"] (Node.var "n") 0 [Value.int 3] =
      (initHeap ++ [⟨paramBind ["n"] [Value.int 3], some 0⟩],
       (execute Kont.id (Node.var "n") 1
         (initHeap ++ [⟨paramBind ["n"] [Value.int 3], some 0⟩])).2)) ∧
    (callLoop 7 ["n"] (fun _ => BodyRes.signal 7 [Value.int 1]) 3 [("n", Value.int 2)]
      = callLoop 7 ["n"] (fun _ => BodyRes.signal 7 [Value.int 1]) 2
          (overwriteParams [("n", Value.int 2)] ["n"] [Value.int 1])) ∧
    (callLoop 7 ["n"] (fun _ => BodyRes.signal 8 [Value.int 1]) 3 [("n", Value.int 2)]
      = some (Except.error (8, [Value.int 1]))) ∧
    (callLoop 7 ["n"] (fun _ => BodyRes.normal (Value.int 4)) 3 [("n", Value.int 2)]
      = some (Except.ok (Value.int 4))) :=
  ⟨C3_call_activation.1 initHeap ["n"] (Node.var "n") 0 [Value.int 3] rfl,
   C3_call_activation.2.1 7 ["n"] (fun _ => BodyRes.signal 7 [Value.int 1]) 2
     [("n", Value.int 2)] [Value.int 1] rfl,
   C3_call_activation.2.2.1 7 ["n"] (fun _ => BodyRes.signal 8 [Value.int 1]) 2
     [("n", Value.int 2)] 8 [Value.int 1] rfl (by decide),
   C3_call_activation.2.2.2 7 ["n"] (fun _ => BodyRes.normal (Value.int 4)) 2
     [("n", Value.int 2)] (Value.int 4) rfl⟩


/-! ### Claim C10: arity mismatches are truncated by `zip` -/

theorem zip_take_right {α β : Type} :
    ∀ (ps : List α) (args : List β), ps.zip (args.take ps.length) = ps.zip args := by
  intro ps
  induction ps with
  | nil => intro args; rfl
  | cons p ps ih =>
    intro args
    cases args with
    | nil => rfl
    | cons a as => simp [List.zip_cons_cons, ih as]

theorem zip_map_fst {α β : Type} :
    ∀ (ps : List α) (args : List β), (ps.zip args).map Prod.fst = ps.take args.length := by
  intro ps
  induction ps with
  | nil => intro args; simp
  | cons p ps ih =>
    intro args
    cases args with
    | nil => simp
    | cons a as => simp [List.zip_cons_cons, ih as]

theorem varsGet_foldl_not_mem :
    ∀ (pairs : List (String × Value)) (vs : List (String × Value)) (p : String),
      p ∉ pairs.map Prod.fst →
      varsGet (pairs.foldl (fun a pa => varsSet a pa.1 pa.2) vs) p = varsGet vs p := by
  intro pairs
  induction pairs with
  | nil => intro vs p _; rfl
  | cons pa rest ih =>
    intro vs p hp
    simp only [List.map_cons, List.mem_cons] at hp
    push_neg at hp
    show varsGet (rest.foldl (fun a pa => varsSet a pa.1 pa.2) (varsSet vs pa.1 pa.2)) p
        = varsGet vs p
    rw [ih (varsSet vs pa.1 pa.2) p hp.2]
    exact varsGet_varsSet_ne vs pa.1 p pa.2 hp.1

/-- `Block [p := 7, def f(p): p, f()]` — `f` is called with no arguments, so
its parameter `p` stays unbound in the activation environment; reading `p`
falls through to the global scope. -/
def c10prog : Node :=
  Node.block
    [Node.assign "p" (Node.lit (Const.cint 7)),
     Node.funcDef "f" ["p"] (Node.var "p"),
     Node.call (Node.var "f") []]

/-- Claim C10 is partly false on the code: a read of a surplus (unbound)
parameter does *not* necessarily raise the unbound-variable error — the lookup
walks the environment chain, so here `f()` happily returns the global
`p = 7` instead of failing. -/
theorem C10_counterexample :
    execTop 30 initHeap c10prog 0 =
      some ([⟨[("p", Value.int 7), ("f", Value.closure ["p"] (Node.var "p") 0)], Option.none⟩,
             ⟨[], some 0⟩],
            Except.ok (Value.int 7)) := rfl

/-- Amended claim C10: a call with mismatched arity does not fail.  `zip`
pairs parameters with arguments positionally up to the shorter list: surplus
arguments are discarded (binding only depends on `args.take ps.length`),
surplus parameters are left unbound in the activation environment
(`varsGet … = none` for any parameter not among the consumed prefix), and the
same truncation applies when a tail-call signal overwrites the bindings.
Reading a surplus parameter raises the unbound-variable error only when the
name is unbound on the whole environment chain (`envGet … = none`); otherwise
the read resolves to an enclosing binding (see `C10_counterexample`). -/
theorem C10_arity_mismatch :
    (∀ (ps : List String) (args : List Value),
        paramBind ps args = paramBind ps (args.take ps.length)) ∧
    (∀ (ps : List String) (args : List Value) (p : String),
        p ∉ ps.take args.length → varsGet (paramBind ps args) p = Option.none) ∧
    (∀ (vars : List (String × Value)) (ps : List String) (args : List Value),
        overwriteParams vars ps args = overwriteParams vars ps (args.take ps.length)) ∧
    (∀ (h : Heap) (env : Nat) (name : String) (K : Kont),
        envGet h env name = Option.none →
        invokeThunk (ThunkR.varT K name env) h = (h, Except.error (Err.unboundVar name))) := by
  refine ⟨?_, ?_, ?_, ?_⟩
  · intro ps args
    simp only [paramBind, zip_take_right]
  · intro ps args p hp
    rw [← zip_map_fst ps args] at hp
    simpa using varsGet_foldl_not_mem (ps.zip args) [] p hp
  · intro vars ps args
    simp only [overwriteParams, zip_take_right]
  · intro h env name K hget
    simp [invokeThunk, hget]

theorem C10_arity_mismatch_witness :
    varsGet (paramBind ["a", "b"] [Value.int 1]) "b" = Option.none ∧
    overwriteParams [("a", Value.int 0)] ["a"] [Value.int 1, Value.int 2]
      = overwriteParams [("a", Value.int 0)] ["a"] ([Value.int 1, Value.int 2].take 1) ∧
    invokeThunk (ThunkR.varT Kont.id "q" 0) initHeap
      = (initHeap, Except.error (Err.unboundVar "q")) :=
  ⟨C10_arity_mismatch.2.1 ["a", "b"] [Value.int 1] "b" (by decide),
   C10_arity_mismatch.2.2.1 [("a", Value.int 0)] ["a"] [Value.int 1, Value.int 2],
   C10_arity_mismatch.2.2.2 initHeap 0 "q" Kont.id rfl⟩


/-! ### The macro engine of src/macro_transform.py

`BaseNode` subclasses hold dynamically typed fields: strings (including `$`
capture placeholders), `None`, nested nodes, and lists.  `MTerm` is that value
universe; `MNode` has one constructor per `BaseNode` subclass, holding its
fields in declaration order. -/

mutual
inductive MTerm where
  | str (s : String)
  | num (n : Int)
  | pynone
  | node (n : MNode)
  | list (xs : List MTerm)

/-- `IfNode(condition, body, else_body)`, `BinaryOpNode(left, op, right)`,
`ForNode(variable, iterable, body)`, `AssignNode(variable, value)`,
`CallNode(function, args)`, `UnaryOpNode(op, operand)`. -/
inductive MNode where
  | ifN (condition : MTerm) (body : MTerm) (elseBody : MTerm)
  | binaryOp (left : MTerm) (op : MTerm) (right : MTerm)
  | forN (v : MTerm) (iter : MTerm) (body : MTerm)
  | assignN (v : MTerm) (value : MTerm)
  | callN (f : MTerm) (args : MTerm)
  | unaryOp (op : MTerm) (operand : MTerm)
end

/-- `self.type` strings set by each `__init__` (lines 14, 39, 66, 90, 113,
134). -/
def mtag : MNode → String
  | MNode.ifN _ _ _ => "if"
  | MNode.binaryOp _ _ _ => "binary_op"
  | MNode.forN _ _ _ => "for"
  | MNode.assignN _ _ => "assign"
  | MNode.callN _ _ => "call"
  | MNode.unaryOp _ _ => "unary_op"

/-- `s.startswith("$")` — the capture-placeholder test of both engines
(lines 153, 171, 223, 235 of macro_transform.py; lines 219, 228 of
interpreter.py), phrased over the character list so the kernel can
evaluate it. -/
def isCap (s : String) : Bool :=
  match s.data with
  | '$' :: _ => true
  | _ => false

mutual
/-- Python `==` on the field values occurring here: strings, numbers and
`None` compare by value, lists elementwise.  (Python compares two distinct
`BaseNode` objects by identity; object identity is not modelled, and no
pattern exercised here compares nodes with `==` — patterns reach `==` only on
non-node positions.) -/
def mEq : MTerm → MTerm → Bool
  | MTerm.str a, MTerm.str b => a = b
  | MTerm.num a, MTerm.num b => a = b
  | MTerm.pynone, MTerm.pynone => true
  | MTerm.node a, MTerm.node b => mEqN a b
  | MTerm.list a, MTerm.list b => mEqL a b
  | _, _ => false

def mEqN : MNode → MNode → Bool
  | MNode.ifN a b c, MNode.ifN a' b' c' => mEq a a' && mEq b b' && mEq c c'
  | MNode.binaryOp a b c, MNode.binaryOp a' b' c' => mEq a a' && mEq b b' && mEq c c'
  | MNode.forN a b c, MNode.forN a' b' c' => mEq a a' && mEq b b' && mEq c c'
  | MNode.assignN a b, MNode.assignN a' b' => mEq a a' && mEq b b'
  | MNode.callN a b, MNode.callN a' b' => mEq a a' && mEq b b'
  | MNode.unaryOp a b, MNode.unaryOp a' b' => mEq a a' && mEq b b'
  | _, _ => false

def mEqL : List MTerm → List MTerm → Bool
  | [], [] => true
  | a :: as, b :: bs => mEq a b && mEqL as bs
  | _, _ => false
end

/-- Bindings: a Python dict from `$name` to captured value, insertion
ordered. -/
abbrev MBind := List (String × MTerm)

/-- `d[k] = v`. -/
def bset (bs : MBind) (k : String) (v : MTerm) : MBind :=
  match bs with
  | [] => [(k, v)]
  | (k', v') :: rest => if k' = k then (k, v) :: rest else (k', v') :: bset rest k v

/-- `a.update(b)`. -/
def bmerge (a b : MBind) : MBind := b.foldl (fun acc kv => bset acc kv.1 kv.2) a

/-- `d.get(k)` / `d.get(k, default)` via `Option`. -/
def bget : MBind → String → Option MTerm
  | [], _ => Option.none
  | (k', v) :: rest, k => if k' = k then some v else bget rest k

mutual
/-- `match_pattern(pattern, value)` (lines 151-159): a `$`-placeholder matches
anything and captures it; a sub-pattern node recurses via the node's `match`;
otherwise the pattern must equal the value. -/
def matchPat : MTerm → MTerm → Option MBind
  | MTerm.str s, v =>
    if isCap s then some [(s, v)]
    else if mEq (MTerm.str s) v then some [] else Option.none
  | MTerm.node p, v =>
    (match v with
     | MTerm.node vn => nodeMatch p vn
     | _ => Option.none)
  | pat, v => if mEq pat v then some [] else Option.none

/-- The per-class `match` methods (lines 19-34, 44-60, 70-85, 94-107,
116-129, 137-148): `BaseNode.match` requires the `type` tags to agree, then
each field is matched and the results merged in field order; `BinaryOpNode`
additionally requires `self.op != other.op` to fail first. -/
def nodeMatch : MNode → MNode → Option MBind
  | MNode.ifN c b e, MNode.ifN c' b' e' =>
    (match matchPat c c', matchListPat b b', matchListPat e e' with
     | some mc, some mb, some me => some (bmerge (bmerge (bmerge [] mc) mb) me)
     | _, _, _ => Option.none)
  | MNode.binaryOp l op r, MNode.binaryOp l' op' r' =>
    if mEq op op' then
      (match matchPat l l', matchPat r r' with
       | some ml, some mr => some (bmerge (bmerge [] ml) mr)
       | _, _ => Option.none)
    else Option.none
  | MNode.forN v it b, MNode.forN v' it' b' =>
    (match matchPat v v', matchPat it it', matchListPat b b' with
     | some mv, some mi, some mb => some (bmerge (bmerge (bmerge [] mv) mi) mb)
     | _, _, _ => Option.none)
  | MNode.assignN v w, MNode.assignN v' w' =>
    (match matchPat v v', matchPat w w' with
     | some mv, some mw => some (bmerge (bmerge [] mv) mw)
     | _, _ => Option.none)
  | MNode.callN f args, MNode.callN f' args' =>
    (match matchPat f f', matchListPat args args' with
     | some mf, some ma => some (bmerge (bmerge [] mf) ma)
     | _, _ => Option.none)
  | MNode.unaryOp op od, MNode.unaryOp op' od' =>
    (match matchPat op op', matchPat od od' with
     | some mo, some md => some (bmerge (bmerge [] mo) md)
     | _, _ => Option.none)
  | _, _ => Option.none

/-- `match_list_pattern(pattern_list, value_list)` (lines 162-184): both
`None` matches; a non-list on either side fails; a single-element pattern list
whose element is a `$`-placeholder captures the whole value list; otherwise
lengths must agree and elements match pairwise. -/
def matchListPat : MTerm → MTerm → Option MBind
  | MTerm.pynone, MTerm.pynone => some []
  | MTerm.list ps, MTerm.list vs =>
    (match ps with
     | [MTerm.str s] =>
       if isCap s then some [(s, MTerm.list vs)]
       else if ps.length = vs.length then matchPairs ps vs [] else Option.none
     | _ => if ps.length = vs.length then matchPairs ps vs [] else Option.none)
  | _, _ => Option.none

/-- `for p, v in zip(...): ... result.update(matched)` with the accumulated
dict threaded through. -/
def matchPairs : List MTerm → List MTerm → MBind → Option MBind
  | [], _, acc => some acc
  | _ :: _, [], acc => some acc
  | p :: pr, v :: vr, acc =>
    (match matchPat p v with
     | Option.none => Option.none
     | some m => matchPairs pr vr (bmerge acc m))
end


/-- Python truthiness of a field value, for the `x or []` normalization in the
`__init__` methods (lines 16-17, 68, 114). -/
def mtruthy : MTerm → Bool
  | MTerm.str s => !(s == "")
  | MTerm.num n => !(n == 0)
  | MTerm.pynone => false
  | MTerm.node _ => true
  | MTerm.list xs => !xs.isEmpty

/-- `x or []`. -/
def morEmpty (t : MTerm) : MTerm := if mtruthy t then t else MTerm.list []

mutual
/-- `MacroRule.instantiate_template` (lines 221-239): a `$`-placeholder is
replaced by its binding (defaulting to the template itself); a node template
is rebuilt through its class constructor (which re-applies the `or []`
normalizations); a single-placeholder template list substitutes the captured
list in place (no nesting), other lists map elementwise; any other leaf is
copied verbatim. -/
def minst : MTerm → MBind → MTerm
  | MTerm.str s, bs =>
    if isCap s then (bget bs s).getD (MTerm.str s) else MTerm.str s
  | MTerm.node n, bs => MTerm.node (minstN n bs)
  | MTerm.list ts, bs =>
    (match ts with
     | [MTerm.str s] =>
       if isCap s then (bget bs s).getD (MTerm.list ts)
       else MTerm.list (minstL ts bs)
     | _ => MTerm.list (minstL ts bs))
  | t, _ => t

def minstN : MNode → MBind → MNode
  | MNode.ifN c b e, bs =>
      MNode.ifN (minst c bs) (morEmpty (minst b bs)) (morEmpty (minst e bs))
  | MNode.binaryOp l op r, bs => MNode.binaryOp (minst l bs) (minst op bs) (minst r bs)
  | MNode.forN v it b, bs => MNode.forN (minst v bs) (minst it bs) (morEmpty (minst b bs))
  | MNode.assignN v w, bs => MNode.assignN (minst v bs) (minst w bs)
  | MNode.callN f args, bs => MNode.callN (minst f bs) (morEmpty (minst args bs))
  | MNode.unaryOp op od, bs => MNode.unaryOp (minst op bs) (minst od bs)

def minstL : List MTerm → MBind → List MTerm
  | [], _ => []
  | t :: ts, bs => minst t bs :: minstL ts bs
end

/-- A rewrite rule of macro_transform.py (lines 208-219). -/
structure MRule where
  fromPat : MNode
  toTemplate : MTerm

/-- `MacroRule.apply` (lines 213-219): on a match, instantiate the template;
on match failure return Python `None` — *not* the original node. -/
def MRule.apply (r : MRule) (n : MNode) : MTerm :=
  match nodeMatch r.fromPat n with
  | Option.none => MTerm.pynone
  | some bs => minst r.toTemplate bs


/-! ### The macro engine of src/interpreter.py (class `Macro`, lines 209-257)

This engine pattern-matches over the *interpreter's* AST node objects, whose
fields are dynamically typed once placeholders are involved (e.g.
`IfNode("$cond", "$body")` stores strings where nodes normally go).  `PNode`
models such an object as its class name plus its `__dict__` (attribute name /
value pairs in declaration order); `PVal` is the field-value universe. -/

mutual
inductive PVal where
  | str (s : String)
  | num (n : Int)
  | pynone
  | node (n : PNode)
  | list (xs : List PVal)

inductive PNode where
  | mk (tag : String) (fields : List (String × PVal))
end

mutual
/-- Python `==`/`!=` on field values as used by `Macro.match` line 221.
Strings, numbers, `None` compare by value and lists elementwise; Python
compares two `Node` objects by identity (no `__eq__` is defined), which
structural equality over-approximates: where this matters the comparison in
the source can only be *more* likely to fail, so every `= none` (match
failure) result proved below also holds for the source. -/
def pvEq : PVal → PVal → Bool
  | PVal.str a, PVal.str b => a = b
  | PVal.num a, PVal.num b => a = b
  | PVal.pynone, PVal.pynone => true
  | PVal.node a, PVal.node b => pvEqN a b
  | PVal.list a, PVal.list b => pvEqL a b
  | _, _ => false

def pvEqN : PNode → PNode → Bool
  | PNode.mk t f, PNode.mk t' f' => t = t' && pvEqF f f'

def pvEqF : List (String × PVal) → List (String × PVal) → Bool
  | [], [] => true
  | (a, v) :: r, (a', v') :: r' => a = a' && pvEq v v' && pvEqF r r'
  | _, _ => false

def pvEqL : List PVal → List PVal → Bool
  | [], [] => true
  | a :: as, b :: bs => pvEq a b && pvEqL as bs
  | _, _ => false
end

/-- `getattr(node, attr)`; `Option.none` models the (unreachable for
same-class pattern/node pairs) `AttributeError`. -/
def pattrGet : List (String × PVal) → String → Option PVal
  | [], _ => Option.none
  | (a, v) :: rest, attr => if a = attr then some v else pattrGet rest attr

abbrev PBind := List (String × PVal)

def pbset (bs : PBind) (k : String) (v : PVal) : PBind :=
  match bs with
  | [] => [(k, v)]
  | (k', v') :: rest => if k' = k then (k, v) :: rest else (k', v') :: pbset rest k v

def pbget : PBind → String → Option PVal
  | [], _ => Option.none
  | (k', v) :: rest, k => if k' = k then some v else pbget rest k

def isPh : PVal → Bool
  | PVal.str s => isCap s
  | _ => false

/-- The field loop of `Macro.match` (lines 218-222): iterate the *pattern's*
`__dict__`; a `$`-string field captures the node's corresponding attribute;
any other field value must equal the node's attribute — there is no recursion
into sub-pattern nodes. -/
def imatchF (nfields : List (String × PVal)) :
    List (String × PVal) → PBind → Option PBind
  | [], acc => some acc
  | (attr, v) :: rest, acc =>
    (match v with
     | PVal.str s =>
       if isCap s then
         (match pattrGet nfields attr with
          | some w => imatchF nfields rest (pbset acc s w)
          | Option.none => Option.none)
       else
         (match pattrGet nfields attr with
          | some w => if pvEq w (PVal.str s) then imatchF nfields rest acc else Option.none
          | Option.none => Option.none)
     | _ =>
       (match pattrGet nfields attr with
        | some w => if pvEq w v then imatchF nfields rest acc else Option.none
        | Option.none => Option.none))

/-- `Macro.match` (lines 214-224): `isinstance(self.from_pattern, type(node))`
— same class, modelled as equal class tags — then the field loop. -/
def imatch (pat n : PNode) : Option PBind :=
  match pat, n with
  | PNode.mk ptag pfields, PNode.mk _ nfields =>
    if ptag = (match n with | PNode.mk t _ => t) then imatchF nfields pfields []
    else Option.none

mutual
/-- `Macro.instantiate_template` (lines 226-236): a `$`-placeholder is
replaced by `bindings.get(template)` — default Python `None`; lists map
elementwise; a node template is rebuilt positionally through its class
constructor (the interpreter's Node `__init__`s store their arguments
unchanged); other leaves are copied verbatim. -/
def instI : PVal → PBind → PVal
  | PVal.str s, bs =>
    if isCap s then (pbget bs s).getD PVal.pynone else PVal.str s
  | PVal.list xs, bs => PVal.list (instIL xs bs)
  | PVal.node pn, bs => PVal.node (instIN pn bs)
  | t, _ => t

def instIN : PNode → PBind → PNode
  | PNode.mk tag fields, bs => PNode.mk tag (instIF fields bs)

def instIF : List (String × PVal) → PBind → List (String × PVal)
  | [], _ => []
  | (a, v) :: rest, bs => (a, instI v bs) :: instIF rest bs

def instIL : List PVal → PBind → List PVal
  | [], _ => []
  | v :: rest, bs => instI v bs :: instIL rest bs
end

/-- A `Macro` of interpreter.py (lines 209-212). -/
structure IRule where
  fromPat : PNode
  toTemplate : PVal

/-- `Macro.apply` (lines 238-242): on match failure, return the original node
unchanged. -/
def IRule.apply (r : IRule) (n : PNode) : PVal :=
  match imatch r.fromPat n with
  | Option.none => PVal.node n
  | some bs => instI r.toTemplate bs


/-! ### Claim C4: `apply` on match failure -/

/-- The `unless` rule defined at lines 242-245 of macro_transform.py:
`IfNode("$cond", ["$body"])  ⟶  IfNode(UnaryOpNode("not", "$cond"), ["$body"])`
(the `__init__` `or []` normalization stores `[]` for the absent else). -/
def unlessRule : MRule :=
  ⟨MNode.ifN (MTerm.str "$cond") (MTerm.list [MTerm.str "$body"]) (MTerm.list []),
   MTerm.node (MNode.ifN (MTerm.node (MNode.unaryOp (MTerm.str "not") (MTerm.str "$cond")))
     (MTerm.list [MTerm.str "$body"]) (MTerm.list []))⟩

def c4node : MNode := MNode.binaryOp (MTerm.str "a") (MTerm.str "+") (MTerm.str "b")

/-- Claim C4 is false for macro_transform.py: applying a rule whose pattern
does not match returns Python `None`, not the original node unchanged. -/
theorem C4_counterexample :
    MRule.apply unlessRule c4node = MTerm.pynone ∧
    MRule.apply unlessRule c4node ≠ MTerm.node c4node := by
  have h : MRule.apply unlessRule c4node = MTerm.pynone := by
    simp [MRule.apply, unlessRule, c4node, nodeMatch]
  exact ⟨h, by rw [h]; intro hc; cases hc⟩

/-- Amended claim C4: match failure is never an error in either engine, but
the two engines disagree on the no-match result: interpreter.py's
`Macro.apply` returns the original node unchanged, while macro_transform.py's
`MacroRule.apply` returns `None`. -/
theorem C4_apply_no_match :
    (∀ (r : IRule) (n : PNode), imatch r.fromPat n = Option.none →
        IRule.apply r n = PVal.node n) ∧
    (∀ (r : MRule) (n : MNode), nodeMatch r.fromPat n = Option.none →
        MRule.apply r n = MTerm.pynone) := by
  constructor
  · intro r n h
    simp [IRule.apply, h]
  · intro r n h
    simp [MRule.apply, h]

/-- The `WhileMacro` pattern of interpreter.py (lines 244-257):
`IfNode("$cond", "$body")` with `else_body = None`. -/
def iWhilePat : PNode :=
  PNode.mk "IfNode"
    [("cond", PVal.str "$cond"), ("then_body", PVal.str "$body"),
     ("else_body", PVal.pynone)]

theorem C4_apply_no_match_witness :
    IRule.apply ⟨iWhilePat, PVal.str "$cond"⟩ (PNode.mk "LiteralNode" [("value", PVal.num 3)])
      = PVal.node (PNode.mk "LiteralNode" [("value", PVal.num 3)]) ∧
    MRule.apply unlessRule c4node = MTerm.pynone :=
  ⟨C4_apply_no_match.1 ⟨iWhilePat, PVal.str "$cond"⟩
     (PNode.mk "LiteralNode" [("value", PVal.num 3)])
     (by simp [imatch, iWhilePat]),
   C4_apply_no_match.2 unlessRule c4node
     (by simp [unlessRule, c4node, nodeMatch])⟩

/-! ### Claim C5: structural recursion in `match` -/

/-- A pattern whose `cond` field is itself a sub-pattern with nested
placeholders, for interpreter.py's `Macro.match`:
`IfNode(BinaryOpNode("<", "$x", "$y"), "$b", None)`.
(`BinaryOpNode.__init__(op, left, right)` stores fields in that order.) -/
def c5pat : PNode :=
  PNode.mk "IfNode"
    [("cond", PVal.node (PNode.mk "BinaryOpNode"
        [("op", PVal.str "<"), ("left", PVal.str "$x"), ("right", PVal.str "$y")])),
     ("then_body", PVal.str "$b"),
     ("else_body", PVal.pynone)]

/-- A node the claim's structural recursion would match (same variant, same
operator, concrete operands under the sub-pattern's placeholders). -/
def c5node : PNode :=
  PNode.mk "IfNode"
    [("cond", PVal.node (PNode.mk "BinaryOpNode"
        [("op", PVal.str "<"),
         ("left", PVal.node (PNode.mk "VarNode" [("name", PVal.str "x")])),
         ("right", PVal.node (PNode.mk "LiteralNode" [("value", PVal.num 5)]))])),
     ("then_body", PVal.node (PNode.mk "LiteralNode" [("value", PVal.num 1)])),
     ("else_body", PVal.pynone)]

/-- The analogous pattern/node pair for macro_transform.py's engine. -/
def m5pat : MNode :=
  MNode.ifN (MTerm.node (MNode.binaryOp (MTerm.str "$x") (MTerm.str "<") (MTerm.str "$y")))
    (MTerm.list [MTerm.str "$b"]) (MTerm.list [])

def m5node : MNode :=
  MNode.ifN (MTerm.node (MNode.binaryOp (MTerm.str "a") (MTerm.str "<") (MTerm.str "b")))
    (MTerm.list [MTerm.str "stmt"]) (MTerm.list [])

/-- Claim C5 is false for interpreter.py's `Macro.match`: a pattern position
that is itself a sub-pattern node does *not* recurse — the field is compared
with host equality, so the nested placeholders `$x`, `$y` are never bound and
the match fails on a node that structural recursion (as implemented by
macro_transform.py's `match_pattern`, second conjunct) matches with bindings. -/
theorem C5_counterexample :
    imatch c5pat c5node = Option.none ∧
    nodeMatch m5pat m5node =
      some [("$x", MTerm.str "a"), ("$y", MTerm.str "b"),
            ("$b", MTerm.list [MTerm.str "stmt"])] := by
  constructor
  · simp [imatch, c5pat, c5node, imatchF, pattrGet, isCap, pvEq, pvEqN, pvEqF, pvEqL]
  · simp [m5pat, m5node, nodeMatch, matchPat, matchListPat, matchPairs, mEq,
          isCap, bmerge, bset]

/-- Amended claim C5: macro_transform.py's `match_pattern` recurses
structurally exactly as the claim describes — variant tags must agree,
children are matched pairwise, an operator mismatch or any child failure fails
the whole match with no bindings — while interpreter.py's `Macro.match`
compares a sub-pattern-node field by (identity-based) equality without
recursing, so placeholders nested inside it are never bound. -/
theorem C5_structural_match :
    (∀ p v : MNode, mtag p ≠ mtag v → nodeMatch p v = Option.none) ∧
    (∀ l op r l' op' r' : MTerm, mEq op op' = false →
        nodeMatch (MNode.binaryOp l op r) (MNode.binaryOp l' op' r') = Option.none) ∧
    (∀ l op r l' op' r' : MTerm, matchPat l l' = Option.none →
        nodeMatch (MNode.binaryOp l op r) (MNode.binaryOp l' op' r') = Option.none) ∧
    (∀ (l op r l' op' r' : MTerm) (ml : MBind), matchPat l l' = some ml →
        matchPat r r' = Option.none →
        nodeMatch (MNode.binaryOp l op r) (MNode.binaryOp l' op' r') = Option.none) ∧
    (∀ (l op r l' op' r' : MTerm) (ml mr : MBind), mEq op op' = true →
        matchPat l l' = some ml → matchPat r r' = some mr →
        nodeMatch (MNode.binaryOp l op r) (MNode.binaryOp l' op' r')
          = some (bmerge (bmerge [] ml) mr)) ∧
    (∀ (p : MNode) (v : MTerm), matchPat (MTerm.node p) v
        = (match v with | MTerm.node vn => nodeMatch p vn | _ => Option.none)) ∧
    (∀ (nfields : List (String × PVal)) (attr : String) (q : PNode)
        (rest : List (String × PVal)) (acc : PBind),
        imatchF nfields ((attr, PVal.node q) :: rest) acc
          = (match pattrGet nfields attr with
             | some w => if pvEq w (PVal.node q) then imatchF nfields rest acc
                         else Option.none
             | Option.none => Option.none)) := by
  refine ⟨?_, ?_, ?_, ?_, ?_, ?_, ?_⟩
  · intro p v h
    cases p <;> cases v <;> first | exact absurd rfl h | simp [nodeMatch]
  · intro l op r l' op' r' h
    simp [nodeMatch, h]
  · intro l op r l' op' r' h
    by_cases hop : mEq op op' <;> simp [nodeMatch, hop, h]
  · intro l op r l' op' r' ml hl hr
    by_cases hop : mEq op op' <;> simp [nodeMatch, hop, hl, hr]
  · intro l op r l' op' r' ml mr hop hl hr
    simp [nodeMatch, hop, hl, hr]
  · intro p v
    cases v <;> simp [matchPat]
  · intro nfields attr q rest acc
    rfl

theorem C5_structural_match_witness :
    nodeMatch (MNode.ifN (MTerm.str "$c") (MTerm.list []) (MTerm.list []))
        (MNode.assignN (MTerm.str "x") (MTerm.num 1)) = Option.none ∧
    nodeMatch (MNode.binaryOp (MTerm.str "$x") (MTerm.str "+") (MTerm.str "$y"))
        (MNode.binaryOp (MTerm.num 1) (MTerm.str "-") (MTerm.num 2)) = Option.none ∧
    nodeMatch (MNode.binaryOp (MTerm.num 1) (MTerm.str "+") (MTerm.str "$y"))
        (MNode.binaryOp (MTerm.num 2) (MTerm.str "+") (MTerm.num 3)) = Option.none ∧
    nodeMatch (MNode.binaryOp (MTerm.str "$x") (MTerm.str "+") (MTerm.num 9))
        (MNode.binaryOp (MTerm.num 1) (MTerm.str "+") (MTerm.num 3)) = Option.none ∧
    nodeMatch (MNode.binaryOp (MTerm.str "$x") (MTerm.str "+") (MTerm.str "$y"))
        (MNode.binaryOp (MTerm.num 1) (MTerm.str "+") (MTerm.num 2))
      = some (bmerge (bmerge [] [("$x", MTerm.num 1)]) [("$y", MTerm.num 2)]) :=
  ⟨C5_structural_match.1 (MNode.ifN (MTerm.str "$c") (MTerm.list []) (MTerm.list []))
     (MNode.assignN (MTerm.str "x") (MTerm.num 1)) (by decide),
   C5_structural_match.2.1 (MTerm.str "$x") (MTerm.str "+") (MTerm.str "$y")
     (MTerm.num 1) (MTerm.str "-") (MTerm.num 2) (by simp [mEq]),
   C5_structural_match.2.2.1 (MTerm.num 1) (MTerm.str "+") (MTerm.str "$y")
     (MTerm.num 2) (MTerm.str "+") (MTerm.num 3) (by simp [matchPat, mEq]),
   C5_structural_match.2.2.2.1 (MTerm.str "$x") (MTerm.str "+") (MTerm.num 9)
     (MTerm.num 1) (MTerm.str "+") (MTerm.num 3) [("$x", MTerm.num 1)]
     (by simp [matchPat, isCap]) (by simp [matchPat, mEq]),
   C5_structural_match.2.2.2.2.1 (MTerm.str "$x") (MTerm.str "+") (MTerm.str "$y")
     (MTerm.num 1) (MTerm.str "+") (MTerm.num 2)
     [("$x", MTerm.num 1)] [("$y", MTerm.num 2)]
     (by simp [mEq]) (by simp [matchPat, isCap]) (by simp [matchPat, isCap])⟩

/-! ### Claim C6: the list-capture round trip -/

/-- Claim C6: a single-placeholder pattern list matches a value list of any
length (0, 1, or N), binding the placeholder to the entire list; a
single-placeholder template list instantiated with that binding reproduces
the original list itself, not a singleton list containing it. -/
theorem C6_list_capture_roundtrip (s : String) (hs : isCap s = true)
    (L : List MTerm) :
    matchListPat (MTerm.list [MTerm.str s]) (MTerm.list L) = some [(s, MTerm.list L)] ∧
    minst (MTerm.list [MTerm.str s]) [(s, MTerm.list L)] = MTerm.list L := by
  constructor
  · simp [matchListPat, hs]
  · simp [minst, hs, bget]

theorem C6_list_capture_roundtrip_witness :
    (matchListPat (MTerm.list [MTerm.str "$xs"]) (MTerm.list [])
        = some [("$xs", MTerm.list [])] ∧
      minst (MTerm.list [MTerm.str "$xs"]) [("$xs", MTerm.list [])] = MTerm.list []) ∧
    (matchListPat (MTerm.list [MTerm.str "$xs"]) (MTerm.list [MTerm.str "a"])
        = some [("$xs", MTerm.list [MTerm.str "a"])] ∧
      minst (MTerm.list [MTerm.str "$xs"]) [("$xs", MTerm.list [MTerm.str "a"])]
        = MTerm.list [MTerm.str "a"]) ∧
    (matchListPat (MTerm.list [MTerm.str "$xs"]) (MTerm.list [MTerm.str "a", MTerm.num 2])
        = some [("$xs", MTerm.list [MTerm.str "a", MTerm.num 2])] ∧
      minst (MTerm.list [MTerm.str "$xs"]) [("$xs", MTerm.list [MTerm.str "a", MTerm.num 2])]
        = MTerm.list [MTerm.str "a", MTerm.num 2]) :=
  ⟨C6_list_capture_roundtrip "$xs" rfl [],
   C6_list_capture_roundtrip "$xs" rfl [MTerm.str "a"],
   C6_list_capture_roundtrip "$xs" rfl [MTerm.str "a", MTerm.num 2]⟩


end MLang
